import Mathlib

/-!
Verification of the trending-score subsystem of the anonium backend.

The Python source is shallowly embedded: floating-point numbers are
modelled as real numbers, timestamps as real-valued seconds, database
rows as Lean structures, and the request / batch pipelines as pure list
transformations.  Every definition follows the corresponding source
function line by line (posts/views.py and
app/management/commands/compute_trending_scores.py).
-/

namespace Anonium

/-! ### Score function (posts/views.py, calculate_trending_score, lines 34-53) -/

/-- Embedding of the half-life normalization on line 38:
a non-positive (or zero, hence falsy) half-life is replaced by 6.0. -/
noncomputable def normalizeHalfLife (half_life_hours : ℝ) : ℝ :=
  if 0 < half_life_hours then half_life_hours else 6

/-- Embedding of line 40: engagement is net votes plus weighted comments. -/
noncomputable def engagementOf (upvotes downvotes comment_count : ℤ)
    (comment_weight : ℝ) : ℝ :=
  ((upvotes : ℝ) - (downvotes : ℝ)) + ((max comment_count 0 : ℤ) : ℝ) * max comment_weight 0

/-- Embedding of lines 45-49: elapsed seconds clamped below at 0, then
converted to hours. -/
noncomputable def elapsedHours (created_at now : ℝ) : ℝ :=
  if now - created_at < 0 then 0 else (now - created_at) / 3600

/-- Embedding of the Python round(x, 7) on line 53 (rounding to seven
decimal places; the idealized real-valued rounding). -/
noncomputable def round7 (x : ℝ) : ℝ :=
  ((round (x * 10 ^ 7) : ℤ) : ℝ) / 10 ^ 7

/-- Embedding of calculate_trending_score (posts/views.py lines 34-53).
Timestamps are real-valued seconds; 0.5 ** x and 10 ** x are real powers
and math.log10 is the base-10 real logarithm. -/
noncomputable def calculate_trending_score (upvotes downvotes : ℤ) (created_at : ℝ)
    (comment_count : ℤ) (comment_weight : ℝ) (now : ℝ) (half_life_hours : ℝ) : ℝ :=
  let hl := normalizeHalfLife half_life_hours
  let score := max (engagementOf upvotes downvotes comment_count comment_weight) 0
  if score ≤ 0 then 0
  else
    let decay : ℝ := (1 / 2 : ℝ) ^ (elapsedHours created_at now / hl)
    let log_score := Real.logb 10 (score + 1)
    round7 ((10 : ℝ) ^ log_score * decay * 100)

lemma normalizeHalfLife_pos (h : ℝ) : 0 < normalizeHalfLife h := by
  unfold normalizeHalfLife
  split <;> [assumption; norm_num]

lemma elapsedHours_nonneg (c t : ℝ) : 0 ≤ elapsedHours c t := by
  unfold elapsedHours
  by_cases h : t - c < 0
  · rw [if_pos h]
  · rw [if_neg h]
    have h0 : 0 ≤ t - c := not_lt.mp h
    positivity

lemma elapsedHours_mono (c : ℝ) {t1 t2 : ℝ} (h : t1 ≤ t2) :
    elapsedHours c t1 ≤ elapsedHours c t2 := by
  by_cases h1 : t1 - c < 0
  · rw [show elapsedHours c t1 = 0 from if_pos h1]
    exact elapsedHours_nonneg c t2
  · unfold elapsedHours
    have h2 : ¬ t2 - c < 0 := fun hlt => h1 (by linarith)
    rw [if_neg h1, if_neg h2]
    have : t1 - c ≤ t2 - c := by linarith
    linarith

/-- The re-exponentiation 10 ** log10(score + 1) collapses to score + 1. -/
lemma rpow_logb_cancel {x : ℝ} (hx : 0 < x) :
    (10 : ℝ) ^ Real.logb 10 x = x :=
  Real.rpow_logb (by norm_num) (by norm_num) hx

lemma round7_mono {x y : ℝ} (h : x ≤ y) : round7 x ≤ round7 y := by
  unfold round7
  have hfl : round (x * 10 ^ 7) ≤ round (y * 10 ^ 7) := by
    rw [round_eq, round_eq]
    exact Int.floor_mono (by nlinarith)
  have hcast : ((round (x * 10 ^ 7) : ℤ) : ℝ) ≤ ((round (y * 10 ^ 7) : ℤ) : ℝ) := by
    exact_mod_cast hfl
  have h7 : (0:ℝ) < 10 ^ 7 := by norm_num
  exact (div_le_div_iff_of_pos_right h7).mpr hcast

lemma abs_round7_sub (x : ℝ) : |round7 x - x| ≤ 1 / (2 * 10 ^ 7) := by
  unfold round7
  have h := abs_sub_round (x * 10 ^ 7)
  have h7 : (0:ℝ) < 10 ^ 7 := by norm_num
  have key : ((round (x * 10 ^ 7) : ℤ) : ℝ) / 10 ^ 7 - x
      = (((round (x * 10 ^ 7) : ℤ) : ℝ) - x * 10 ^ 7) / 10 ^ 7 := by
    field_simp
    ring
  rw [key, abs_div, abs_of_pos h7, abs_sub_comm]
  have hb : |x * 10 ^ 7 - ((round (x * 10 ^ 7) : ℤ) : ℝ)| / 10 ^ 7 ≤ (1 / 2) / 10 ^ 7 :=
    (div_le_div_iff_of_pos_right h7).mpr h
  have heq : (1 / 2 : ℝ) / 10 ^ 7 = 1 / (2 * 10 ^ 7) := by norm_num
  linarith

lemma calculate_trending_score_of_nonpos (upvotes downvotes comment_count : ℤ)
    (comment_weight created_at now half_life_hours : ℝ)
    (h : engagementOf upvotes downvotes comment_count comment_weight ≤ 0) :
    calculate_trending_score upvotes downvotes created_at comment_count comment_weight
      now half_life_hours = 0 := by
  have hc : max (engagementOf upvotes downvotes comment_count comment_weight) 0 ≤ 0 :=
    max_le h le_rfl
  simp only [calculate_trending_score, if_pos hc]

lemma calculate_trending_score_of_pos (upvotes downvotes comment_count : ℤ)
    (comment_weight created_at now half_life_hours : ℝ)
    (h : 0 < engagementOf upvotes downvotes comment_count comment_weight) :
    calculate_trending_score upvotes downvotes created_at comment_count comment_weight
        now half_life_hours
      = round7 ((engagementOf upvotes downvotes comment_count comment_weight + 1)
          * (1 / 2 : ℝ) ^ (elapsedHours created_at now / normalizeHalfLife half_life_hours)
          * 100) := by
  have hc : ¬ max (engagementOf upvotes downvotes comment_count comment_weight) 0 ≤ 0 :=
    not_le.mpr (lt_of_lt_of_le h (le_max_left _ _))
  have hmax : max (engagementOf upvotes downvotes comment_count comment_weight) 0
      = engagementOf upvotes downvotes comment_count comment_weight := max_eq_left h.le
  have hpos : (0:ℝ) < engagementOf upvotes downvotes comment_count comment_weight + 1 := by
    linarith
  simp only [calculate_trending_score, if_neg hc, hmax, rpow_logb_cancel hpos]
  rw [if_neg (not_le.mpr h)]

/-- C7: whenever the engagement (upvotes - downvotes) + max(comment_count, 0) *
max(comment_weight, 0) is non-positive, calculate_trending_score returns
exactly 0, for any created_at, now and half_life_hours. -/
theorem trending_score_zero_on_nonpositive_engagement
    (upvotes downvotes comment_count : ℤ) (comment_weight created_at now half_life_hours : ℝ)
    (h : engagementOf upvotes downvotes comment_count comment_weight ≤ 0) :
    calculate_trending_score upvotes downvotes created_at comment_count comment_weight
      now half_life_hours = 0 :=
  calculate_trending_score_of_nonpos upvotes downvotes comment_count comment_weight
    created_at now half_life_hours h

/-- C7 witness: the concrete input upvotes = 0, downvotes = 10, comment_count = 0
of the spec scores exactly 0. -/
theorem trending_score_zero_on_nonpositive_engagement_witness :
    engagementOf 0 10 0 (7/10) ≤ 0
      ∧ calculate_trending_score 0 10 0 0 (7/10) 3600 6 = 0 :=
  ⟨by norm_num [engagementOf],
   trending_score_zero_on_nonpositive_engagement 0 10 0 (7/10) 0 3600 6
     (by norm_num [engagementOf])⟩

/-- C8: for now strictly earlier than created_at, the score equals the score
evaluated at now = created_at (elapsed time clamps to 0, decay factor 1). -/
theorem trending_score_clock_skew_clamp
    (upvotes downvotes comment_count : ℤ) (comment_weight created_at now half_life_hours : ℝ)
    (h : now < created_at) :
    calculate_trending_score upvotes downvotes created_at comment_count comment_weight
        now half_life_hours
      = calculate_trending_score upvotes downvotes created_at comment_count comment_weight
          created_at half_life_hours := by
  have he : elapsedHours created_at now = elapsedHours created_at created_at := by
    unfold elapsedHours
    rw [if_pos (show now - created_at < 0 by linarith), sub_self,
      if_neg (lt_irrefl (0:ℝ)), zero_div]
  simp only [calculate_trending_score, he]

/-- C8 witness: one hour of clock skew (now = created_at - 3600 seconds) yields
the same score as now = created_at on the spec example with 5 upvotes. -/
theorem trending_score_clock_skew_clamp_witness :
    calculate_trending_score 5 0 7200 0 (7/10) 3600 6
      = calculate_trending_score 5 0 7200 0 (7/10) 7200 6 :=
  trending_score_clock_skew_clamp 5 0 0 (7/10) 7200 3600 6 (by norm_num)

/-- Embedding of the half_life_hours query-parameter handling of
TrendingPostListView.get (posts/views.py lines 341-346): a missing or
malformed parameter (modelled as none) falls back to 6.0, and a parsed
non-positive value is replaced by 6.0. -/
noncomputable def parseHalfLife (q : Option ℝ) : ℝ :=
  match q with
  | none => 6
  | some v => if v ≤ 0 then 6 else v

/-- C9: with a non-positive half_life_hours the score function silently
substitutes the default 6.0 (never raising), and the trending endpoint
likewise substitutes 6.0 for a malformed or non-positive half_life_hours
query parameter. -/
theorem trending_half_life_default_substitution
    (half_life_hours : ℝ) (h : half_life_hours ≤ 0)
    (upvotes downvotes comment_count : ℤ) (comment_weight created_at now : ℝ) :
    calculate_trending_score upvotes downvotes created_at comment_count comment_weight
        now half_life_hours
      = calculate_trending_score upvotes downvotes created_at comment_count comment_weight
          now 6
    ∧ parseHalfLife (some half_life_hours) = 6 ∧ parseHalfLife none = 6 := by
  refine ⟨?_, ?_, rfl⟩
  · have hn : normalizeHalfLife half_life_hours = normalizeHalfLife 6 := by
      unfold normalizeHalfLife
      rw [if_neg (not_lt.mpr h), if_pos (by norm_num : (0:ℝ) < 6)]
    simp only [calculate_trending_score, hn]
  · simp only [parseHalfLife, if_pos h]

/-- C9 witness: the substitution at the concrete half-life -3. -/
theorem trending_half_life_default_substitution_witness :
    calculate_trending_score 5 0 0 0 (7/10) 3600 (-3)
        = calculate_trending_score 5 0 0 0 (7/10) 3600 6
      ∧ parseHalfLife (some (-3)) = 6 ∧ parseHalfLife none = 6 :=
  trending_half_life_default_substitution (-3) (by norm_num) 5 0 0 (7/10) 0 3600

/-- C4: for fixed engagement inputs and half-life, the score at a later
evaluation instant t2 is at most the score at an earlier instant t1:
the score never increases purely from time passing. -/
theorem trending_score_monotone_decay
    (upvotes downvotes comment_count : ℤ) (comment_weight created_at half_life_hours : ℝ)
    {t1 t2 : ℝ} (h : t1 < t2) :
    calculate_trending_score upvotes downvotes created_at comment_count comment_weight
        t2 half_life_hours
      ≤ calculate_trending_score upvotes downvotes created_at comment_count comment_weight
          t1 half_life_hours := by
  by_cases heng : engagementOf upvotes downvotes comment_count comment_weight ≤ 0
  · rw [calculate_trending_score_of_nonpos upvotes downvotes comment_count comment_weight
        created_at t2 half_life_hours heng,
      calculate_trending_score_of_nonpos upvotes downvotes comment_count comment_weight
        created_at t1 half_life_hours heng]
  · have hpos := lt_of_not_le heng
    rw [calculate_trending_score_of_pos upvotes downvotes comment_count comment_weight
        created_at t2 half_life_hours hpos,
      calculate_trending_score_of_pos upvotes downvotes comment_count comment_weight
        created_at t1 half_life_hours hpos]
    apply round7_mono
    have hhl := normalizeHalfLife_pos half_life_hours
    have he := elapsedHours_mono created_at h.le
    have hdec : (1/2 : ℝ) ^ (elapsedHours created_at t2 / normalizeHalfLife half_life_hours)
        ≤ (1/2 : ℝ) ^ (elapsedHours created_at t1 / normalizeHalfLife half_life_hours) :=
      Real.rpow_le_rpow_of_exponent_ge (by norm_num) (by norm_num)
        ((div_le_div_iff_of_pos_right hhl).mpr he)
    have hE : (0:ℝ) ≤ engagementOf upvotes downvotes comment_count comment_weight + 1 := by
      linarith
    have := mul_le_mul_of_nonneg_left hdec hE
    linarith

/-- C4 witness: with 5 upvotes, the score one hour after creation bounds the
score two hours after creation from above. -/
theorem trending_score_monotone_decay_witness :
    calculate_trending_score 5 0 0 0 (7/10) 7200 6
      ≤ calculate_trending_score 5 0 0 0 (7/10) 3600 6 :=
  trending_score_monotone_decay 5 0 0 (7/10) 0 6 (by norm_num)

/-- C6: for strictly positive engagement and positive half-life, the score at
now = created_at + half_life_hours (in seconds) is half the score at
now = created_at, up to the 7-decimal rounding tolerance. -/
theorem trending_score_half_life_property
    (upvotes downvotes comment_count : ℤ) (comment_weight created_at : ℝ)
    {half_life_hours : ℝ} (hhl : 0 < half_life_hours)
    (heng : 0 < engagementOf upvotes downvotes comment_count comment_weight) :
    |calculate_trending_score upvotes downvotes created_at comment_count comment_weight
        (created_at + half_life_hours * 3600) half_life_hours
      - (1/2) * calculate_trending_score upvotes downvotes created_at comment_count
          comment_weight created_at half_life_hours| ≤ 1 / 10 ^ 7 := by
  rw [calculate_trending_score_of_pos upvotes downvotes comment_count comment_weight
      created_at (created_at + half_life_hours * 3600) half_life_hours heng,
    calculate_trending_score_of_pos upvotes downvotes comment_count comment_weight
      created_at created_at half_life_hours heng]
  have h1 : elapsedHours created_at created_at = 0 := by
    unfold elapsedHours
    rw [sub_self, if_neg (lt_irrefl (0:ℝ)), zero_div]
  have h2 : elapsedHours created_at (created_at + half_life_hours * 3600)
      = half_life_hours := by
    unfold elapsedHours
    have hsub : created_at + half_life_hours * 3600 - created_at
        = half_life_hours * 3600 := by ring
    rw [hsub, if_neg (not_lt.mpr (by positivity))]
    field_simp
  have hnorm : normalizeHalfLife half_life_hours = half_life_hours := if_pos hhl
  rw [h1, h2, hnorm, zero_div, Real.rpow_zero, div_self (ne_of_gt hhl), Real.rpow_one]
  have ha := abs_round7_sub
    ((engagementOf upvotes downvotes comment_count comment_weight + 1) * (1/2) * 100)
  have hb := abs_round7_sub
    ((engagementOf upvotes downvotes comment_count comment_weight + 1) * 1 * 100)
  rw [abs_le] at ha hb ⊢
  constructor <;> [linarith [ha.1, ha.2, hb.1, hb.2]; linarith [ha.1, ha.2, hb.1, hb.2]]

/-- C6 witness: the spec example (8 upvotes, 2 downvotes, 4 comments) halves
across one 6-hour half-life. -/
theorem trending_score_half_life_property_witness :
    |calculate_trending_score 8 2 0 4 (7/10) (0 + 6 * 3600) 6
      - (1/2) * calculate_trending_score 8 2 0 4 (7/10) 0 6| ≤ 1 / 10 ^ 7 :=
  trending_score_half_life_property 8 2 4 (7/10) 0 (by norm_num)
    (by norm_num [engagementOf])

/-! ### Upvote and downvote derivation (posts/views.py lines 378-379,
compute_trending_scores.py lines 82-83) -/

/-- Embedding of upvotes = max(int((votes_total + score) / 2), 0):
Python int() of the float quotient truncates toward zero, i.e. Int.tdiv. -/
def deriveUpvotes (score votes_total : ℤ) : ℤ :=
  max ((votes_total + score).tdiv 2) 0

/-- Embedding of downvotes = max(votes_total - upvotes, 0). -/
def deriveDownvotes (score votes_total : ℤ) : ℤ :=
  max (votes_total - deriveUpvotes score votes_total) 0

/-- The pairs (score, votes_total) reachable by the voting subsystem of
PostVoteView.post: casting a vote adds plus or minus 1 to score and 1 to
votes_total; toggling an existing vote off removes such a step
symmetrically, which requires that a vote of that direction exists
(votes_total + score counts twice the up votes, votes_total - score twice
the down votes). -/
inductive VoteReachable : ℤ → ℤ → Prop
  | init : VoteReachable 0 0
  | castUp {s v : ℤ} : VoteReachable s v → VoteReachable (s + 1) (v + 1)
  | castDown {s v : ℤ} : VoteReachable s v → VoteReachable (s - 1) (v + 1)
  | retractUp {s v : ℤ} : VoteReachable s v → 0 < v + s → VoteReachable (s - 1) (v - 1)
  | retractDown {s v : ℤ} : VoteReachable s v → 0 < v - s → VoteReachable (s + 1) (v - 1)

/-- Every reachable counter pair decomposes into up and down counts. -/
lemma voteReachable_counts {s v : ℤ} (h : VoteReachable s v) :
    ∃ u d : ℕ, s = (u:ℤ) - (d:ℤ) ∧ v = (u:ℤ) + (d:ℤ) := by
  induction h with
  | init => exact ⟨0, 0, by norm_num, by norm_num⟩
  | castUp _ ih =>
      obtain ⟨u, d, hs, hv⟩ := ih
      exact ⟨u + 1, d, by push_cast; omega, by push_cast; omega⟩
  | castDown _ ih =>
      obtain ⟨u, d, hs, hv⟩ := ih
      exact ⟨u, d + 1, by push_cast; omega, by push_cast; omega⟩
  | retractUp _ hpos ih =>
      obtain ⟨u, d, hs, hv⟩ := ih
      have hu : 0 < u := by omega
      exact ⟨u - 1, d, by push_cast [hu]; omega, by push_cast [hu]; omega⟩
  | retractDown _ hpos ih =>
      obtain ⟨u, d, hs, hv⟩ := ih
      have hd : 0 < d := by omega
      exact ⟨u, d - 1, by push_cast [hd]; omega, by push_cast [hd]; omega⟩

/-- Conversely every up and down count pair is reachable. -/
lemma voteReachable_of_counts (u d : ℕ) :
    VoteReachable ((u:ℤ) - (d:ℤ)) ((u:ℤ) + (d:ℤ)) := by
  induction u with
  | zero =>
      induction d with
      | zero => simpa using VoteReachable.init
      | succ d ih =>
          have h := VoteReachable.castDown ih
          convert h using 1
          push_cast
          ring
  | succ u ih =>
      have h := VoteReachable.castUp ih
      convert h using 1 <;> (push_cast; ring)

/-- C2: for every (score, votes_total) pair reachable from (0, 0) by
plus-minus-1 vote steps and their symmetric removals, the derived upvote
and downvote counters recover score as their difference and votes_total
as their sum. -/
theorem vote_derivation_round_trip {s v : ℤ} (h : VoteReachable s v) :
    deriveUpvotes s v - deriveDownvotes s v = s
      ∧ deriveUpvotes s v + deriveDownvotes s v = v := by
  obtain ⟨u, d, hs, hv⟩ := voteReachable_counts h
  have hsum : v + s = 2 * (u:ℤ) := by omega
  have hup : deriveUpvotes s v = (u:ℤ) := by
    unfold deriveUpvotes
    rw [hsum, Int.mul_tdiv_cancel_left _ (by norm_num : (2:ℤ) ≠ 0)]
    exact max_eq_left (Int.natCast_nonneg u)
  have hdown : deriveDownvotes s v = (d:ℤ) := by
    unfold deriveDownvotes
    rw [hup]
    have : v - (u:ℤ) = (d:ℤ) := by omega
    rw [this]
    exact max_eq_left (Int.natCast_nonneg d)
  rw [hup, hdown]
  omega

/-- C2 witness: the spec example votes_total = 10, score = 6 recovers
upvotes = 8, downvotes = 2. -/
theorem vote_derivation_round_trip_witness :
    deriveUpvotes 6 10 - deriveDownvotes 6 10 = 6
      ∧ deriveUpvotes 6 10 + deriveDownvotes 6 10 = 10 :=
  vote_derivation_round_trip
    (show VoteReachable 6 10 by
      have h := voteReachable_of_counts 8 2
      norm_num at h
      exact h)

/-! ### Post rows and the Batch Recomputer
(app/management/commands/compute_trending_scores.py, Command.handle) -/

/-- One stored post row, with the columns the trending subsystem reads.
K is the (ordered field) type of timestamps and float values; the
verification instantiates it at the reals. -/
structure PostRow (K : Type) where
  id : ℕ
  score : ℤ
  votes_total : ℤ
  created_at : K
  active_comments : ℕ
  is_deleted : Bool
  community_public : Bool
  author_muted : Bool

/-- Eligibility filter shared by the batch queryset and its cleanup pass
(compute_trending_scores.py lines 56-59 and 118-122): not soft-deleted and
in a publicly visible community. -/
def PostRow.eligible {K : Type} (p : PostRow K) : Bool :=
  !p.is_deleted && p.community_public

/-- The per-post score the handlers compute (views.py lines 377-388 and
compute_trending_scores.py lines 82-93): derive the up and down votes,
read the live comment count and apply the score function with the default
comment weight 0.7. -/
noncomputable def rowScore (now half_life_hours : ℝ) (p : PostRow ℝ) : ℝ :=
  calculate_trending_score (deriveUpvotes p.score p.votes_total)
    (deriveDownvotes p.score p.votes_total) p.created_at (p.active_comments : ℤ)
    (7/10) now half_life_hours

/-- Main-loop treatment of one store entry (post together with its stored
trending_score), compute_trending_scores.py lines 77-105: an eligible
in-window post is rewritten with the freshly computed score exactly when
the absolute difference exceeds the tolerance. -/
def batchEntry {K : Type} [LinearOrderedField K] (f : PostRow K → K) (tol cutoff : K)
    (e : PostRow K × K) : PostRow K × K :=
  if e.1.eligible = true ∧ cutoff ≤ e.1.created_at then
    (e.1, if tol < |e.2 - f e.1| then f e.1 else e.2)
  else e

/-- Cleanup pass, compute_trending_scores.py lines 118-123: an eligible post
older than the cutoff whose stored score is positive is reset to 0. -/
def batchResetEntry {K : Type} [LinearOrderedField K] (cutoff : K)
    (e : PostRow K × K) : PostRow K × K :=
  if e.1.eligible = true ∧ e.1.created_at < cutoff ∧ 0 < e.2 then (e.1, 0) else e

/-- A full Batch Recomputer run over the store: the main loop followed by the
cleanup pass. -/
def batchRun {K : Type} [LinearOrderedField K] (f : PostRow K → K) (tol cutoff : K)
    (store : List (PostRow K × K)) : List (PostRow K × K) :=
  (store.map (batchEntry f tol cutoff)).map (batchResetEntry cutoff)

/-- The updated_count a run reports: the number of eligible in-window posts
whose recomputed score differs from the stored one by more than the
tolerance (compute_trending_scores.py lines 96-105). -/
def batchUpdatedCount {K : Type} [LinearOrderedField K] (f : PostRow K → K)
    (tol cutoff : K) (store : List (PostRow K × K)) : ℕ :=
  store.countP (fun e => decide (e.1.eligible = true ∧ cutoff ≤ e.1.created_at
    ∧ tol < |e.2 - f e.1|))

/-- A soft-deleted post in a public community, created before the cutoff,
carrying a stale positive stored score. -/
def staleDeletedRow : PostRow ℝ :=
  { id := 1, score := 3, votes_total := 5, created_at := -3600, active_comments := 0,
    is_deleted := true, community_public := true, author_muted := false }

/-- C1 counterexample: a Batch Recomputer run with cutoff 0 leaves the
soft-deleted post (created before the cutoff, stored score 5 greater than 0)
untouched in the store with its score still 5 and not 0 — the claim that
every such post is reset, with no further precondition, fails. -/
theorem batch_stale_reset_counterexample :
    batchRun (rowScore 0 6) (1/10000) 0 [(staleDeletedRow, 5)] = [(staleDeletedRow, 5)]
      ∧ staleDeletedRow.created_at < 0 ∧ (0:ℝ) < 5 ∧ (5:ℝ) ≠ 0 := by
  refine ⟨?_, by norm_num [staleDeletedRow], by norm_num, by norm_num⟩
  have he : staleDeletedRow.eligible = false := rfl
  simp [batchRun, batchEntry, batchResetEntry, he]

/-- C1 (amended): after a Batch Recomputer run, every non-deleted post of a
publicly visible community whose created_at is strictly before the cutoff
and whose stored score was positive appears in the store with score
exactly 0. -/
theorem batch_stale_reset_amended {K : Type} [LinearOrderedField K]
    (f : PostRow K → K) (tol cutoff : K) (store : List (PostRow K × K))
    (p : PostRow K) (st : K) (hmem : (p, st) ∈ store)
    (he : p.eligible = true) (hc : p.created_at < cutoff) (hst : 0 < st) :
    (p, (0:K)) ∈ batchRun f tol cutoff store := by
  unfold batchRun
  have h1 : batchEntry f tol cutoff (p, st) = (p, st) := by
    unfold batchEntry
    rw [if_neg]
    rintro ⟨-, hle⟩
    exact absurd hc (not_lt.mpr hle)
  have h2 : batchResetEntry cutoff (p, st) = (p, (0:K)) := by
    unfold batchResetEntry
    rw [if_pos ⟨he, hc, hst⟩]
  have hm1 := List.mem_map_of_mem (batchEntry f tol cutoff) hmem
  rw [h1] at hm1
  have hm2 := List.mem_map_of_mem (batchResetEntry cutoff) hm1
  rw [h2] at hm2
  exact hm2

/-- An eligible (non-deleted, public) post created before the cutoff with a
stale positive stored score. -/
def staleEligibleRow : PostRow ℝ :=
  { id := 2, score := 3, votes_total := 5, created_at := -3600, active_comments := 0,
    is_deleted := false, community_public := true, author_muted := false }

/-- C1 witness: the amended reset applies to a concrete eligible stale post. -/
theorem batch_stale_reset_amended_witness :
    (staleEligibleRow, (0:ℝ)) ∈ batchRun (rowScore 0 6) (1/10000) 0
      [(staleEligibleRow, 5)] :=
  batch_stale_reset_amended (rowScore 0 6) (1/10000) 0 [(staleEligibleRow, 5)]
    staleEligibleRow 5 (List.mem_singleton.mpr rfl) rfl
    (by norm_num [staleEligibleRow]) (by norm_num)

/-- C3: a second Batch Recomputer run over the store produced by a first run,
with the same posts and configuration and now advanced so little that every
eligible in-window post recomputes to within the 1e-4 tolerance of the score
the first run persisted, reports updated_count = 0. -/
theorem batch_second_run_idempotent (now₁ now₂ lookback half_life : ℝ)
    (store : List (PostRow ℝ × ℝ))
    (h : ∀ e ∈ batchRun (rowScore now₁ half_life) (1/10000) (now₁ - lookback * 3600) store,
      e.1.eligible = true → now₂ - lookback * 3600 ≤ e.1.created_at →
        |e.2 - rowScore now₂ half_life e.1| ≤ 1/10000) :
    batchUpdatedCount (rowScore now₂ half_life) (1/10000) (now₂ - lookback * 3600)
      (batchRun (rowScore now₁ half_life) (1/10000) (now₁ - lookback * 3600) store)
      = 0 := by
  unfold batchUpdatedCount
  rw [List.countP_eq_zero]
  intro e he
  simp only [decide_eq_true_eq]
  rintro ⟨h1, h2, h3⟩
  exact absurd h3 (not_lt.mpr (h e he h1 h2))

/-- An eligible post inside the lookback window with no votes and no
comments: its recomputed score is 0, matching its stored score 0. -/
def quietEligibleRow : PostRow ℝ :=
  { id := 3, score := 0, votes_total := 0, created_at := 0, active_comments := 0,
    is_deleted := false, community_public := true, author_muted := false }

lemma rowScore_quietEligibleRow (now hl : ℝ) :
    rowScore now hl quietEligibleRow = 0 := by
  unfold rowScore
  apply calculate_trending_score_of_nonpos
  norm_num [deriveUpvotes, deriveDownvotes, engagementOf, quietEligibleRow,
    Int.zero_tdiv]

/-- C3 witness: a store holding one eligible in-window post whose recomputed
score (0, from zero engagement) matches its stored score 0 within the
tolerance; the closeness hypothesis is exercised at that post and the second
run updates nothing. -/
theorem batch_second_run_idempotent_witness :
    batchUpdatedCount (rowScore 7200 6) (1/10000) (7200 - 168 * 3600)
      (batchRun (rowScore 3600 6) (1/10000) (3600 - 168 * 3600)
        [(quietEligibleRow, 0)]) = 0 :=
  batch_second_run_idempotent 3600 7200 168 6 [(quietEligibleRow, 0)] (by
    have hentry : batchEntry (rowScore 3600 6) (1/10000) (3600 - 168 * 3600)
        (quietEligibleRow, 0) = (quietEligibleRow, 0) := by
      unfold batchEntry
      rw [if_pos ⟨rfl, by norm_num [quietEligibleRow]⟩,
        rowScore_quietEligibleRow]
      norm_num
    have hreset : batchResetEntry (3600 - 168 * 3600 : ℝ)
        (quietEligibleRow, 0) = (quietEligibleRow, 0) := by
      unfold batchResetEntry
      rw [if_neg]
      rintro ⟨-, -, h0⟩
      exact lt_irrefl 0 h0
    have hrun : batchRun (rowScore 3600 6) (1/10000) (3600 - 168 * 3600)
        [(quietEligibleRow, 0)] = [(quietEligibleRow, 0)] := by
      unfold batchRun
      rw [List.map_singleton, hentry, List.map_singleton, hreset]
    intro e he h1 h2
    rw [hrun, List.mem_singleton] at he
    rw [he, rowScore_quietEligibleRow]
    norm_num)

/-! ### Online Sampler (posts/views.py, TrendingPostListView.get, lines 334-396) -/

/-- Embedding of the limit parsing (lines 334-339): a missing or malformed
limit (modelled as none) falls back to 20, then the value is clamped into
[1, 50]. -/
def parseLimit (q : Option ℤ) : ℤ :=
  max 1 (min (q.getD 20) 50)

/-- Embedding of the lookback parsing (lines 348-352): default 168 hours,
clamped below at 0. -/
def parseLookback {K : Type} [LinearOrderedField K] (q : Option K) : K :=
  max 0 (q.getD 168)

/-- Candidate filter (lines 355-372): not deleted, public community, author
not muted, and inside the lookback window whenever lookback is positive. -/
def samplerEligible {K : Type} [LinearOrderedField K] (lookback now : K)
    (p : PostRow K) : Bool :=
  !p.is_deleted && p.community_public && !p.author_muted
    && (decide (lookback ≤ 0) || decide (now - lookback * 3600 ≤ p.created_at))

/-- Candidate pool (line 374): the filtered posts ordered by created_at
descending, truncated to the sample size 200. -/
def sampleCandidates {K : Type} [LinearOrderedField K] (lookback now : K)
    (corpus : List (PostRow K)) : List (PostRow K) :=
  ((corpus.filter (samplerEligible lookback now)).mergeSort
    (fun a b => decide (b.created_at ≤ a.created_at))).take 200

/-- Scoring loop (lines 376-390): each candidate is paired with its computed
score. The score function is a parameter so that the counting facts hold for
the real-valued instantiation rowScore. -/
def scoredSample {K : Type} [LinearOrderedField K] {M : Type} [LinearOrder M]
    (f : PostRow K → M) (lookback now : K) (corpus : List (PostRow K)) :
    List (M × PostRow K) :=
  (sampleCandidates lookback now corpus).map (fun p => (f p, p))

/-- Response assembly (lines 392-393): sort by score descending and return
the first limit posts. -/
def trendingTop {K : Type} [LinearOrderedField K] {M : Type} [LinearOrder M]
    (f : PostRow K → M) (limit : ℤ) (lookback now : K) (corpus : List (PostRow K)) :
    List (PostRow K) :=
  (((scoredSample f lookback now corpus).mergeSort
      (fun a b => decide (b.1 ≤ a.1))).take limit.toNat).map Prod.snd

/-- C5: the trending endpoint returns at most min(requested_limit, 50) posts
for any requested limit at least 1, every parsed limit lies in [1, 50] with a
missing or malformed limit defaulting to 20, and at most 200 candidates are
ever scored, regardless of corpus size. -/
theorem sampler_cap {K : Type} [LinearOrderedField K] {M : Type} [LinearOrder M]
    (f : PostRow K → M) (corpus : List (PostRow K)) (lookback now : K)
    (n : ℤ) (hn : 1 ≤ n) :
    ((trendingTop f (parseLimit (some n)) lookback now corpus).length : ℤ) ≤ min n 50
      ∧ (∀ q : Option ℤ, 1 ≤ parseLimit q ∧ parseLimit q ≤ 50)
      ∧ parseLimit none = 20
      ∧ (scoredSample f lookback now corpus).length ≤ 200 := by
  refine ⟨?_, ?_, ?_, ?_⟩
  · have hlen : (trendingTop f (parseLimit (some n)) lookback now corpus).length
        ≤ (parseLimit (some n)).toNat := by
      unfold trendingTop
      rw [List.length_map, List.length_take]
      exact min_le_left _ _
    have hp : parseLimit (some n) = min n 50 := by
      unfold parseLimit
      simp only [Option.getD]
      omega
    omega
  · intro q
    cases q <;> simp [parseLimit]
  · rfl
  · unfold scoredSample sampleCandidates
    rw [List.length_map, List.length_take]
    exact min_le_left _ _

/-- C5 witness: a concrete request with requested limit 60 over an empty
corpus, scored by the real row scorer. -/
theorem sampler_cap_witness :
    ((trendingTop (rowScore 0 6) (parseLimit (some 60)) 0 0 ([] : List (PostRow ℝ))).length : ℤ)
        ≤ min 60 50
      ∧ (∀ q : Option ℤ, 1 ≤ parseLimit q ∧ parseLimit q ≤ 50)
      ∧ parseLimit none = 20
      ∧ (scoredSample (rowScore 0 6) 0 0 ([] : List (PostRow ℝ))).length ≤ 200 :=
  sampler_cap (rowScore 0 6) [] 0 0 60 (by norm_num)

/-! ### Community listing, trending sort
(posts/views.py, CommunityPostListCreateView.get_queryset, lines 84-126) -/

/-- Queryset filter of the community listing (lines 75-81): not deleted and
author not muted (the community restriction is implicit: the corpus is the
posts of the requested community). -/
def communityVisible {K : Type} (p : PostRow K) : Bool :=
  !p.is_deleted && !p.author_muted

/-- One iteration of the loop at lines 101-118: a post matching the clip id
becomes the clipped post (overwriting), every other post is appended to the
list of remaining posts. -/
def clipStep {K : Type} (clip : Option ℕ)
    (acc : Option (PostRow K) × List (PostRow K)) (p : PostRow K) :
    Option (PostRow K) × List (PostRow K) :=
  if some p.id = clip then (some p, acc.2) else (acc.1, acc.2 ++ [p])

/-- The whole separation loop (lines 97-118). -/
def splitClip {K : Type} (clip : Option ℕ) (l : List (PostRow K)) :
    Option (PostRow K) × List (PostRow K) :=
  l.foldl (clipStep clip) (none, [])

/-- Trending branch of the community listing (lines 84-126): filter, separate
the clipped post, sort the rest by score descending, and put the clipped
post first when present. -/
def communityTrendingList {K : Type} {M : Type} [LinearOrder M]
    (f : PostRow K → M) (clip : Option ℕ) (posts : List (PostRow K)) :
    List (PostRow K) :=
  let ps := posts.filter communityVisible
  let split := splitClip clip ps
  let sorted := split.2.mergeSort (fun a b => decide (f b ≤ f a))
  match split.1 with
  | some c => c :: sorted
  | none => sorted

lemma splitClip_snd_aux {K : Type} (clip : Option ℕ) (l : List (PostRow K)) :
    ∀ acc : Option (PostRow K) × List (PostRow K),
      (l.foldl (clipStep clip) acc).2
        = acc.2 ++ l.filter (fun p => !decide (some p.id = clip)) := by
  induction l with
  | nil => intro acc; simp
  | cons p rest ih =>
      intro acc
      by_cases h : some p.id = clip
      · simp only [List.foldl_cons, clipStep, if_pos h]
        rw [ih]
        simp [List.filter_cons, h]
      · simp only [List.foldl_cons, clipStep, if_neg h]
        rw [ih]
        simp [List.filter_cons, h]

lemma splitClip_snd {K : Type} (clip : Option ℕ) (l : List (PostRow K)) :
    (splitClip clip l).2 = l.filter (fun p => !decide (some p.id = clip)) := by
  unfold splitClip
  rw [splitClip_snd_aux]
  rfl

lemma splitClip_fst_keep {K : Type} (clip : Option ℕ) (c₀ : PostRow K) :
    ∀ l : List (PostRow K), (∀ p ∈ l, some p.id = clip → p = c₀) →
      ∀ acc : List (PostRow K),
        (l.foldl (clipStep clip) (some c₀, acc)).1 = some c₀ := by
  intro l
  induction l with
  | nil => intro _ acc; rfl
  | cons p rest ih =>
      intro hall acc
      by_cases h : some p.id = clip
      · have hp : p = c₀ := hall p (by simp) h
        subst hp
        simp only [List.foldl_cons, clipStep, if_pos h]
        exact ih (fun q hq hcq => hall q (by simp [hq]) hcq) acc
      · simp only [List.foldl_cons, clipStep, if_neg h]
        exact ih (fun q hq hcq => hall q (by simp [hq]) hcq) (acc ++ [p])

lemma splitClip_fst_none {K : Type} (clip : Option ℕ) :
    ∀ l : List (PostRow K), (∀ p ∈ l, ¬ some p.id = clip) →
      ∀ (c : Option (PostRow K)) (acc : List (PostRow K)),
        (l.foldl (clipStep clip) (c, acc)).1 = c := by
  intro l
  induction l with
  | nil => intro _ c acc; rfl
  | cons p rest ih =>
      intro hall c acc
      have h : ¬ some p.id = clip := hall p (by simp)
      simp only [List.foldl_cons, clipStep, if_neg h]
      exact ih (fun q hq => hall q (by simp [hq])) c (acc ++ [p])

lemma splitClip_fst_unique {K : Type} (clip : Option ℕ) (c₀ : PostRow K) :
    ∀ l : List (PostRow K), c₀ ∈ l → some c₀.id = clip →
      (∀ p ∈ l, some p.id = clip → p = c₀) →
      ∀ (c : Option (PostRow K)) (acc : List (PostRow K)),
        (l.foldl (clipStep clip) (c, acc)).1 = some c₀ := by
  intro l
  induction l with
  | nil => intro hmem; cases hmem
  | cons p rest ih =>
      intro hmem hc hall c acc
      by_cases h : some p.id = clip
      · have hp : p = c₀ := hall p (by simp) h
        subst hp
        simp only [List.foldl_cons, clipStep, if_pos h]
        exact splitClip_fst_keep clip p rest
          (fun q hq hcq => hall q (by simp [hq]) hcq) acc
      · have hne : p ≠ c₀ := fun he => h (by rw [he]; exact hc)
        have hmem2 : c₀ ∈ rest := by
          rcases List.mem_cons.mp hmem with h1 | h1
          · exact absurd h1.symm hne
          · exact h1
        simp only [List.foldl_cons, clipStep, if_neg h]
        exact ih hmem2 hc (fun q hq hcq => hall q (by simp [hq]) hcq) c (acc ++ [p])

lemma sorted_desc_mergeSort {K : Type} {M : Type} [LinearOrder M]
    (f : PostRow K → M) (l : List (PostRow K)) :
    (l.mergeSort (fun a b => decide (f b ≤ f a))).Pairwise
      (fun a b => f b ≤ f a) := by
  have h := @List.sorted_mergeSort (PostRow K) (fun a b => decide (f b ≤ f a))
    (fun a b c hab hbc => by
      simp only [decide_eq_true_eq] at hab hbc ⊢
      exact le_trans hbc hab)
    (fun a b => by
      simp only [Bool.or_eq_true, decide_eq_true_eq]
      exact le_total (f b) (f a))
    l
  exact h.imp (fun {a b} hab => by simpa using hab)

/-- C10: in the single-community trending listing, if the clip id matches
exactly one visible post, the result is that post followed by the remaining
visible posts in descending score order; if the clip id matches no visible
post, the result is all visible posts in descending score order. -/
theorem community_trending_clip_order {K : Type} {M : Type} [LinearOrder M]
    (f : PostRow K → M) (clip : Option ℕ) (posts : List (PostRow K)) :
    ((∀ p ∈ posts.filter communityVisible, ¬ some p.id = clip) →
        (communityTrendingList f clip posts).Perm (posts.filter communityVisible)
          ∧ (communityTrendingList f clip posts).Pairwise (fun a b => f b ≤ f a))
      ∧ (∀ c ∈ posts.filter communityVisible, some c.id = clip →
          (∀ p ∈ posts.filter communityVisible, some p.id = clip → p = c) →
          (communityTrendingList f clip posts).head? = some c
            ∧ (communityTrendingList f clip posts).tail.Perm
                ((posts.filter communityVisible).filter
                  (fun p => !decide (some p.id = clip)))
            ∧ (communityTrendingList f clip posts).tail.Pairwise
                (fun a b => f b ≤ f a)) := by
  constructor
  · intro hnone
    have hfst : (splitClip clip (posts.filter communityVisible)).1 = none := by
      unfold splitClip
      exact splitClip_fst_none clip (posts.filter communityVisible) hnone none []
    have hself : (posts.filter communityVisible).filter
        (fun p => !decide (some p.id = clip)) = posts.filter communityVisible := by
      rw [List.filter_eq_self]
      intro a ha
      simpa using hnone a ha
    constructor
    · simp only [communityTrendingList, hfst]
      rw [splitClip_snd, hself]
      exact List.mergeSort_perm _ _
    · simp only [communityTrendingList, hfst]
      exact sorted_desc_mergeSort f _
  · intro c hmem hc huniq
    have hfst : (splitClip clip (posts.filter communityVisible)).1 = some c := by
      unfold splitClip
      exact splitClip_fst_unique clip c (posts.filter communityVisible) hmem hc huniq none []
    have hlist : communityTrendingList f clip posts
        = c :: (splitClip clip (posts.filter communityVisible)).2.mergeSort
            (fun a b => decide (f b ≤ f a)) := by
      simp only [communityTrendingList, hfst]
    refine ⟨by rw [hlist]; rfl, ?_, ?_⟩
    · rw [hlist, List.tail_cons, splitClip_snd]
      exact List.mergeSort_perm _ _
    · rw [hlist, List.tail_cons]
      exact sorted_desc_mergeSort f _

/-- A visible post clipped in its community (id 1). -/
def clippedRow : PostRow ℝ :=
  { id := 1, score := 0, votes_total := 0, created_at := 0, active_comments := 0,
    is_deleted := false, community_public := true, author_muted := false }

/-- A second visible post of the same community (id 2). -/
def unclippedRow : PostRow ℝ :=
  { id := 2, score := 5, votes_total := 5, created_at := 0, active_comments := 3,
    is_deleted := false, community_public := true, author_muted := false }

/-- C10 witness: with clip id 1 matching the first of two visible posts, the
listing puts the clipped post first and the remainder sorted by score. -/
theorem community_trending_clip_order_witness :
    (communityTrendingList (rowScore 0 6) (some 1) [clippedRow, unclippedRow]).head?
        = some clippedRow
      ∧ (communityTrendingList (rowScore 0 6) (some 1) [clippedRow, unclippedRow]).tail.Perm
          (([clippedRow, unclippedRow].filter communityVisible).filter
            (fun p => !decide (some p.id = some 1)))
      ∧ (communityTrendingList (rowScore 0 6) (some 1) [clippedRow, unclippedRow]).tail.Pairwise
          (fun a b => rowScore 0 6 b ≤ rowScore 0 6 a) :=
  (community_trending_clip_order (rowScore 0 6) (some 1) [clippedRow, unclippedRow]).2
    clippedRow (List.mem_filter.mpr ⟨by simp, rfl⟩) rfl
    (by
      intro p hp hid
      have hcases : p = clippedRow ∨ p = unclippedRow := by
        simpa using (List.mem_filter.mp hp).1
      rcases hcases with h | h
      · exact h
      · exfalso
        rw [h] at hid
        exact absurd hid (by decide))

end Anonium
